import Mathlib

/-!
Verification of the scaffold-gen template engine against its specification.

Rust strings are modelled as lists of characters (`RStr`); this matches the
source byte-for-byte on ASCII data, which is all the template machinery and
the spec's examples use.  Machine integers that matter (`u16` ports, lengths)
are modelled as `Nat`.  Fallible Rust functions returning `anyhow::Result`
are modelled as `Except RStr`.  Filesystem writes are modelled by returning
the list of (relative output path, content) pairs a run produces, in
processing order.
-/

/-- Model of a Rust string slice as a list of characters. -/
abbrev RStr := List Char

/-- Conversion from a Lean string literal to the Rust string model. -/
def rs (x : String) : RStr := x.toList

/-- The opening template delimiter character. -/
def lbrace : Char := '\x7b'

/-- The closing template delimiter character. -/
def rbrace : Char := '\x7d'

/-- Model of Rust `char::to_lowercase` restricted to its ASCII behaviour
(the repository only case-converts ASCII project names and identifiers). -/
def rust_to_lower (c : Char) : Char := c.toLower

/-- Model of Rust `char::to_uppercase` (first produced character) restricted
to its ASCII behaviour. -/
def rust_to_upper (c : Char) : Char := c.toUpper

/-- Model of `serde_json::Value` restricted to the variants the generators
produce for template contexts: strings, booleans, integers and string arrays. -/
inductive Value where
  | str (v : RStr)
  | bool (b : Bool)
  | num (n : Int)
  | arr (vs : List Value)

/-- Model of `HashMap<String, Value>` as an association list with unique keys:
`ctx_insert` removes any previous binding of the key and appends the new one,
mirroring `HashMap::insert`'s overwrite semantics. -/
abbrev Ctx := List (RStr × Value)

/-- Lookup in the context model (`HashMap::get`). -/
def ctx_lookup (m : Ctx) (k : RStr) : Option Value :=
  (m.find? (fun p => p.1 == k)).map (fun p => p.2)

/-- Insert in the context model (`HashMap::insert`): the old binding of the
key, if any, is dropped. -/
def ctx_insert (m : Ctx) (k : RStr) (v : Value) : Ctx :=
  m.filter (fun p => p.1 != k) ++ [(k, v)]

/-- Model of `HashMap::extend` (used by `ParameterScope::add_all` and
`ParameterScope::merge` in src/scaffold.rs): every binding of `other` is
inserted over `m`, so `other` wins on common keys. -/
def ctx_extend (m other : Ctx) : Ctx :=
  other.foldl (fun acc p => ctx_insert acc p.1 p.2) m

/-- Merge of an ordered list of parameter-layer contexts into one rendering
context, as performed by the generators: each layer's `to_context()` output is
applied over the accumulator in list order (src/scaffold.rs `ParameterScope`,
src/generators/framework/gin/parameters.rs `to_template_context`). -/
def merge_layers (layers : List Ctx) : Ctx :=
  layers.foldl ctx_extend []

/-- Value of `k` in a single layer when that layer is read as a map: the last
binding of `k` in the layer wins (matching insertion order into a `HashMap`). -/
def layer_last_value (layer : Ctx) (k : RStr) : Option Value :=
  (layer.reverse.find? (fun p => p.1 == k)).map (fun p => p.2)

/-- Modelled from the spec: "applies each layer's `to_context()` output over
an accumulator map in list order; last write per key wins".  The merged value
of `k` is the one contributed by the latest layer in list order defining `k`. -/
def spec_last_write (layers : List Ctx) (k : RStr) : Option Value :=
  layers.foldl
    (fun acc layer =>
      match layer_last_value layer k with
      | some v => some v
      | none => acc)
    none

/-- Whitespace test used when tokenizing a template expression. -/
def is_space_c (c : Char) : Bool := c == ' '

/-- Trim of leading and trailing spaces of a template expression. -/
def trim_chars (x : RStr) : RStr :=
  ((x.dropWhile is_space_c).reverse.dropWhile is_space_c).reverse

/-- Split of a character list at every occurrence of `sep`, mirroring Rust
`str::split` (an empty input yields one empty piece). -/
def split_on_char (sep : Char) : List Char → List (List Char)
  | [] => [[]]
  | c :: cs =>
    match split_on_char sep cs with
    | [] => if c == sep then [[], []] else [[c]]
    | g :: gs => if c == sep then [] :: g :: gs else (c :: g) :: gs

/-- Words of a template expression: space-separated non-empty pieces. -/
def split_words (x : RStr) : List RStr :=
  (split_on_char ' ' x).filter (fun w => w != [])

/-- Template token produced by parsing `Handlebars` template text: literal
text, a variable reference, or a single-argument helper application. -/
inductive Tok where
  | lit (text : RStr)
  | var (name : RStr)
  | helperCall (helper arg : RStr)

/-- Scan for the first closing delimiter pair, returning the text before it
and the remainder after it. -/
def scan_close : List Char → Option (List Char × List Char)
  | [] => none
  | [_] => none
  | c₁ :: c₂ :: rest =>
    if c₁ = rbrace ∧ c₂ = rbrace then some ([], rest)
    else
      match scan_close (c₂ :: rest) with
      | none => none
      | some (pre, post) => some (c₁ :: pre, post)

/-- Parse of the expression between delimiters: one word is a variable
reference, two words are a helper applied to one argument. -/
def parse_expr (inner : RStr) : Except RStr Tok :=
  match split_words (trim_chars inner) with
  | [x] => .ok (.var x)
  | [h, a] => .ok (.helperCall h a)
  | _ => .error (rs "invalid template expression")

/-- Fuelled template scanner.  Each step consumes at least one character, so
fuel `length + 1` always suffices. -/
def parse_toks : Nat → List Char → Except RStr (List Tok)
  | 0, _ => .error (rs "template scanner out of fuel")
  | _ + 1, [] => .ok []
  | fuel + 1, c₁ :: rest =>
    match rest with
    | [] => .ok [.lit [c₁]]
    | c₂ :: rest₂ =>
      if c₁ = lbrace ∧ c₂ = lbrace then
        match scan_close rest₂ with
        | none => .error (rs "unbalanced template delimiters")
        | some (inner, post) =>
          match parse_expr inner with
          | .error e => .error e
          | .ok tok =>
            match parse_toks fuel post with
            | .error e => .error e
            | .ok ts => .ok (tok :: ts)
      else
        match parse_toks fuel (c₂ :: rest₂) with
        | .error e => .error e
        | .ok ts => .ok (.lit [c₁] :: ts)

/-- Parse of a whole template text into tokens.  Models the `handlebars`
dependency's template compilation on the variable/helper subset the
repository's templates use; malformed (unbalanced) delimiters are an error. -/
def parse_template (t : RStr) : Except RStr (List Tok) :=
  parse_toks (t.length + 1) t

/-- Model of src/template_engine.rs `to_camel_case`: the input is split on
hyphens only, and each piece has its first character uppercased and the rest
lowercased. -/
def to_camel_case (x : RStr) : RStr :=
  ((split_on_char '-' x).map
    (fun word =>
      match word with
      | [] => []
      | c :: cs => rust_to_upper c :: cs.map rust_to_lower)).flatten

/-- Model of src/template_engine.rs `to_snake_case`: hyphens become
underscores and the result is lowercased. -/
def to_snake_case (x : RStr) : RStr :=
  (x.map (fun c => if c = '-' then '_' else c)).map rust_to_lower

/-- Helper registry built by `TemplateEngine::new`
(src/template_engine.rs): exactly `to_camel_case` and `to_snake_case`.
The helpers read their single parameter as a string, defaulting to the empty
string when the parameter is absent or not a string (`unwrap_or("")`). -/
def helper_named (name : RStr) : Option (RStr → RStr) :=
  if name == rs "to_camel_case" then some to_camel_case
  else if name == rs "to_snake_case" then some to_snake_case
  else none

mutual

/-- Textual rendering of a context value interpolated into output, modelling
the `handlebars` dependency's JSON value printing on the variants used here. -/
def value_render : Value → RStr
  | .str v => v
  | .bool b => if b then rs "true" else rs "false"
  | .num n => (toString n).toList
  | .arr vs => value_render_list vs

/-- Rendering of an array value as comma-separated elements. -/
def value_render_list : List Value → RStr
  | [] => []
  | [v] => value_render v
  | v :: vs => value_render v ++ rs "," ++ value_render_list vs

end

/-- Token-list rendering against a context.  Models the `handlebars`
dependency: with `strict = false` (the `Handlebars::new()` default, and the
repository never calls `set_strict_mode`) a variable absent from the context
renders as the empty string; with `strict = true` it would be an error. -/
def render_toks (strict : Bool) (ctx : Ctx) : List Tok → Except RStr RStr
  | [] => .ok []
  | .lit l :: ts =>
    match render_toks strict ctx ts with
    | .error e => .error e
    | .ok r => .ok (l ++ r)
  | .var k :: ts =>
    match ctx_lookup ctx k with
    | some v =>
      match render_toks strict ctx ts with
      | .error e => .error e
      | .ok r => .ok (value_render v ++ r)
    | none =>
      if strict then .error (rs "variable not found in strict mode")
      else render_toks strict ctx ts
  | .helperCall h a :: ts =>
    match helper_named h with
    | none => .error (rs "helper not defined")
    | some f =>
      let arg : RStr :=
        match ctx_lookup ctx a with
        | some (.str v) => v
        | _ => []
      match render_toks strict ctx ts with
      | .error e => .error e
      | .ok r => .ok (f arg ++ r)

/-- Model of `TemplateEngine::render_template_content`
(src/template_engine.rs): the template text is rendered against the context
by the engine built in `TemplateEngine::new`, which registers the two case
helpers and leaves strict mode at its default (off). -/
def render_template_content (content : RStr) (ctx : Ctx) : Except RStr RStr :=
  match parse_template content with
  | .error e => .error e
  | .ok toks => render_toks false ctx toks

/-- Removal of a prefix from a character list, mirroring Rust
`str::strip_prefix` (and `Path::strip_prefix` on the clean relative paths the
walkers produce). -/
def strip_prefix_l : List Char → List Char → Option (List Char)
  | [], l => some l
  | _ :: _, [] => none
  | p :: ps, c :: cs => if p = c then strip_prefix_l ps cs else none

/-- Split of a list at its last occurrence of `sep`, returning the parts
before and after it. -/
def last_split (sep : Char) : List Char → Option (List Char × List Char)
  | [] => none
  | c :: cs =>
    match last_split sep cs with
    | some (pre, post) => some (c :: pre, post)
    | none => if c = sep then some ([], cs) else none

/-- Base file name of a path: the part after the last slash, or the whole
path when it has none (Rust `Path::file_name` on the clean paths used here). -/
def base_name (p : RStr) : RStr :=
  match last_split '/' p with
  | some (_, aft) => aft
  | none => p

/-- Directory-preserving replacement of a path's extension by nothing,
modelling Rust `Path::with_extension("")`. -/
def rust_stem (name : RStr) : RStr :=
  match last_split '.' name with
  | none => name
  | some ([], _) => name
  | some (pre, _) => pre

/-- Extension of a file name under Rust's rules: the part after the last dot,
unless the name has no dot or its only role is the leading hidden-file dot. -/
def rust_extension (name : RStr) : Option RStr :=
  match last_split '.' name with
  | none => none
  | some ([], _) => none
  | some (_, ext) => some ext

/-- Extension of a path's base file name (Rust `Path::extension`). -/
def rust_path_extension (p : RStr) : Option RStr :=
  rust_extension (base_name p)

/-- Model of Rust `Path::with_extension("")`: the base name loses its
extension, directories are kept. -/
def rust_with_extension_empty (p : RStr) : RStr :=
  match last_split '/' p with
  | some (pre, aft) => pre ++ '/' :: rust_stem aft
  | none => rust_stem p

/-- Substring test mirroring Rust `str::contains`. -/
def contains_sub (hay needle : RStr) : Bool :=
  needle.isPrefixOf hay ||
    match hay with
    | [] => false
    | _ :: rest => contains_sub rest needle

/-- Model of the `include_dir` embedded template tree
(`EMBEDDED_TEMPLATES` in src/template_engine.rs): each node carries its
files (base name and content) and named subdirectories, in their fixed
compile-time order.  The actual `templates/` tree is not in the sources, so
the store is a parameter of every walk. -/
inductive Dir where
  | node (files : List (RStr × RStr)) (dirs : List (RStr × Dir))

/-- File lookup by path segments in the embedded tree (`Dir::get_file`). -/
def dir_get_file : Dir → List RStr → Option RStr
  | _, [] => none
  | .node files _, [name] => (files.find? (fun f => f.1 == name)).map (fun f => f.2)
  | .node _ dirs, d :: rest =>
    match dirs.find? (fun x => x.1 == d) with
    | some x => dir_get_file x.2 rest
    | none => none

/-- File lookup by slash-separated path string
(`EMBEDDED_TEMPLATES.get_file(relative_path)`). -/
def dir_get_file_s (store : Dir) (p : RStr) : Option RStr :=
  dir_get_file store (split_on_char '/' p)

/-- Path concatenation used by the recursive collectors in
src/template_engine.rs: an empty current path contributes nothing. -/
def join_path (current name : RStr) : RStr :=
  if current = [] then name else current ++ rs "/" ++ name

mutual

/-- Model of `collect_files_recursive` inside `get_embedded_template_files`
(src/template_engine.rs): the files of a directory are listed first, then the
subdirectory trees in order. -/
def collect_files_recursive : Dir → RStr → List RStr
  | .node files dirs, current =>
    files.map (fun f => join_path current f.1) ++ collect_subdirs dirs current

/-- Collection over the subdirectory list of a node. -/
def collect_subdirs : List (RStr × Dir) → RStr → List RStr
  | [], _ => []
  | (name, d) :: rest, current =>
    collect_files_recursive d (join_path current name) ++ collect_subdirs rest current

end

/-- Model of `get_embedded_template_files` (src/template_engine.rs): all files
of the store are enumerated, then filtered to those strictly under the given
prefix (non-empty prefix match, longer than the prefix, with a slash right
after it).  `.len()`/`.nth()` coincide with character counts on the ASCII
paths of the store. -/
def get_embedded_template_files (store : Dir) (relative_path : RStr) : List RStr :=
  let all_files := collect_files_recursive store []
  if relative_path = [] then all_files
  else
    all_files.filter
      (fun file =>
        relative_path.isPrefixOf file &&
        decide (relative_path.length < file.length) &&
        file[relative_path.length]? == some '/')

/-- Removal of the `.tmpl` marker suffix when present
(`strip_suffix(".tmpl")`). -/
def strip_tmpl_suffix (p : RStr) : RStr :=
  if (rs ".tmpl").isSuffixOf p then p.take (p.length - 5) else p

/-- Output path computed by `TemplateProcessor::process_embedded_template_directory`
(src/generators/core/template_processor.rs): the namespace prefix plus slash
is removed when present, then the `.tmpl` suffix is stripped. -/
def tp_out_rel (template_path file : RStr) : RStr :=
  let rel :=
    match strip_prefix_l (template_path ++ rs "/") file with
    | some r => r
    | none => file
  strip_tmpl_suffix rel

/-- Per-file step of `TemplateProcessor::process_embedded_template_directory`:
a `.tmpl` file is read from the store and rendered against the context, any
other file is copied as stored; a missing store entry is an error.  No skip
rule is consulted here — the source applies none in this walk. -/
def tp_process_one (store : Dir) (ctx : Ctx) (template_path file : RStr) :
    Except RStr (RStr × RStr) :=
  let out := tp_out_rel template_path file
  if (rs ".tmpl").isSuffixOf file then
    match dir_get_file_s store file with
    | some content =>
      match render_template_content content ctx with
      | .error e => .error e
      | .ok rendered => .ok (out, rendered)
    | none => .error (rs "Template content not found")
  else
    match dir_get_file_s store file with
    | some content => .ok (out, content)
    | none => .error (rs "File content not found")

/-- Loop of `process_embedded_template_directory` over the enumerated files;
the first error aborts the walk. -/
def tp_process_files (store : Dir) (ctx : Ctx) (template_path : RStr) :
    List RStr → Except RStr (List (RStr × RStr))
  | [] => .ok []
  | f :: fs =>
    match tp_process_one store ctx template_path f with
    | .error e => .error e
    | .ok o =>
      match tp_process_files store ctx template_path fs with
      | .error e => .error e
      | .ok rest => .ok (o :: rest)

/-- Model of `TemplateProcessor::process_embedded_template_directory`
(src/generators/core/template_processor.rs): the namespace's files are
enumerated from the embedded store and each is rendered or copied to its
output path. -/
def process_embedded_template_directory (store : Dir) (template_path : RStr)
    (ctx : Ctx) : Except RStr (List (RStr × RStr)) :=
  tp_process_files store ctx template_path
    (get_embedded_template_files store template_path)

/-- Model of `Scaffold::should_skip_file` (src/scaffold.rs): the pre-commit
configuration file (with or without marker) is skipped exactly when the
`enable_precommit` parameter is present, boolean, and false; everything else
falls through to "keep". -/
def should_skip_file (params : Ctx) (file_name : RStr) : Bool :=
  if file_name == rs ".pre-commit-config.yaml.tmpl" ||
      file_name == rs ".pre-commit-config.yaml" then
    match ctx_lookup params (rs "enable_precommit") with
    | some (.bool enabled) => !enabled
    | _ => false
  else false

/-- Per-file step of `Scaffold::process_embedded_file` (src/scaffold.rs):
after the skip check, a file whose base name ends in `.tmpl` is rendered,
any other is copied; either way the output is written under the file's BASE
name, unchanged (this walk strips no marker and keeps no directories).
`none` models the skip branch (`return Ok(())`). -/
def scaffold_process_one (store : Dir) (params : Ctx) (file : RStr) :
    Except RStr (Option (RStr × RStr)) :=
  let file_name := base_name file
  if should_skip_file params file_name then .ok none
  else if (rs ".tmpl").isSuffixOf file_name then
    match dir_get_file_s store file with
    | some content =>
      match render_template_content content params with
      | .error e => .error e
      | .ok rendered => .ok (some (file_name, rendered))
    | none => .error (rs "Failed to read embedded template")
  else
    match dir_get_file_s store file with
    | some content => .ok (some (file_name, content))
    | none => .error (rs "Failed to read embedded file")

/-- Loop of `Scaffold::process_template_directory` (src/scaffold.rs): files
whose base name is exactly `Cargo.toml` or `Cargo.lock` are passed over
before any other handling; remaining files go through
`process_embedded_file`, and the first error aborts. -/
def scaffold_process_files (store : Dir) (params : Ctx) :
    List RStr → Except RStr (List (RStr × RStr))
  | [] => .ok []
  | f :: fs =>
    if base_name f == rs "Cargo.toml" || base_name f == rs "Cargo.lock" then
      scaffold_process_files store params fs
    else
      match scaffold_process_one store params f with
      | .error e => .error e
      | .ok none => scaffold_process_files store params fs
      | .ok (some o) =>
        match scaffold_process_files store params fs with
        | .error e => .error e
        | .ok rest => .ok (o :: rest)

/-- Model of `Scaffold::process` over the embedded store (src/scaffold.rs):
the full recursive file listing is processed with the scaffold's parameters. -/
def scaffold_process (store : Dir) (params : Ctx) :
    Except RStr (List (RStr × RStr)) :=
  scaffold_process_files store params (get_embedded_template_files store [])

/-- Model of `validate_project_name` from
src/generators/core/validation.rs:4-24: the check rejects the characters
matched by its `matches!` arm. -/
def invalid_project_char (c : Char) : Bool :=
  c == '<' || c == '>' || c == ':' || c == '\"' || c == '|' ||
  c == '?' || c == '*' || c == '\\' || c == '/'

/-- Model of `validate_project_name` (src/generators/core/validation.rs):
empty names, names over 100 characters, and names containing a
filesystem-reserved character are rejected; everything else passes.
`name.len()` coincides with the character count on ASCII names. -/
def validate_project_name (name : RStr) : Except RStr Unit :=
  if name = [] then .error (rs "Project name cannot be empty")
  else if 100 < name.length then .error (rs "Project name is too long")
  else if name.any invalid_project_char then
    .error (rs "Project name contains invalid characters")
  else .ok ()

/-- Model of Rust `char::is_alphanumeric` restricted to its ASCII behaviour
(they agree on every ASCII character; the repository feeds it CLI project
names). -/
def rust_is_alphanumeric (c : Char) : Bool := c.isAlphanum

/-- Model of the other `validate_project_name`, the one in
`mod validation` of src/generators/core/parameters.rs:39-58, which is the
one `ProjectParams::validate` resolves to: empty names, names containing a
space, and names with a character that is neither alphanumeric nor `-`/`_`
are rejected. -/
def parameters_validate_project_name (name : RStr) : Except RStr Unit :=
  if name = [] then .error (rs "Project name cannot be empty")
  else if name.contains ' ' then .error (rs "Project name cannot contain spaces")
  else if !(name.all (fun c => rust_is_alphanumeric c || c == '-' || c == '_')) then
    .error (rs "Project name can only contain alphanumeric characters, hyphens, and underscores")
  else .ok ()

/-- Model of `string_utils::to_pascal_case` (src/constants.rs): a running
fold over the characters with a capitalize-next flag, exactly as the source
loop. -/
def to_pascal_case (x : RStr) : RStr :=
  (x.foldl
    (fun (st : RStr × Bool) ch =>
      if ch = '_' ∨ ch = '-' then (st.1, true)
      else if ch.isUpper ∧ st.1 ≠ [] then (st.1 ++ [ch], false)
      else if st.2 then (st.1 ++ [rust_to_upper ch], false)
      else (st.1 ++ [rust_to_lower ch], false))
    ([], true)).1

/-- Model of `string_utils::to_snake_case` (src/constants.rs): an underscore
is inserted before every non-leading uppercase character and everything is
lowercased. -/
def su_to_snake_case (x : RStr) : RStr :=
  x.foldl
    (fun acc ch =>
      if ch.isUpper ∧ acc ≠ [] then acc ++ ['_', rust_to_lower ch]
      else acc ++ [rust_to_lower ch])
    []

/-- Decimal rendering of a number, for `format!` interpolation. -/
def nat_decimal (n : Nat) : RStr := (toString n).toList

/-- Model of `ProjectParams` (src/generators/project/parameters.rs). -/
structure ProjectParams where
  name : RStr
  description : Option RStr
  author : Option RStr
  license : RStr
  enable_git : Bool
  version : RStr

/-- Model of `GoParams` (src/generators/language/go/parameters.rs). -/
structure GoParams where
  version : RStr
  module_name : RStr
  enable_modules : Bool
  enable_cgo : Bool
  build_tags : List RStr
  enable_vendor : Bool

/-- Model of `GinParams` (src/generators/framework/gin/parameters.rs). -/
structure GinParams where
  project : ProjectParams
  go : GoParams
  host : RStr
  port : Nat
  enable_swagger : Bool
  enable_cors : Bool
  enable_logging : Bool
  enable_recovery : Bool
  enable_rate_limit : Bool
  enable_jwt : Bool
  enable_database : Bool
  database_type : Option RStr
  enable_redis : Bool
  enable_precommit : Bool

/-- Model of `ProjectParams::to_template_context`
(src/generators/project/parameters.rs).  The current calendar year is an
environment input (`chrono::Utc::now`), passed as an argument. -/
def ProjectParams.to_template_context (p : ProjectParams) (year : Int) : Ctx :=
  let c := ctx_insert [] (rs "project_name") (.str p.name)
  let c := ctx_insert c (rs "project_version") (.str p.version)
  let c := ctx_insert c (rs "license") (.str p.license)
  let c := ctx_insert c (rs "enable_git") (.bool p.enable_git)
  let c := ctx_insert c (rs "project_name_pascal") (.str (to_pascal_case p.name))
  let c := ctx_insert c (rs "project_name_snake") (.str (su_to_snake_case p.name))
  let c :=
    match p.description with
    | some d => ctx_insert c (rs "project_description") (.str d)
    | none => c
  let c :=
    match p.author with
    | some a => ctx_insert c (rs "author") (.str a)
    | none => c
  ctx_insert c (rs "year") (.num year)

/-- Model of `GoParams::to_template_context`
(src/generators/language/go/parameters.rs).  The host OS and architecture are
environment inputs (`std::env::consts`), passed as arguments. -/
def GoParams.to_template_context (g : GoParams) (goos goarch : RStr) : Ctx :=
  let c := ctx_insert [] (rs "go_version") (.str g.version)
  let c := ctx_insert c (rs "module_name") (.str g.module_name)
  let c := ctx_insert c (rs "enable_modules") (.bool g.enable_modules)
  let c := ctx_insert c (rs "enable_cgo") (.bool g.enable_cgo)
  let c := ctx_insert c (rs "build_tags") (.arr (g.build_tags.map .str))
  let c := ctx_insert c (rs "enable_vendor") (.bool g.enable_vendor)
  let c := ctx_insert c (rs "goos") (.str goos)
  ctx_insert c (rs "goarch") (.str goarch)

/-- Framework-specific key/value pairs inserted by
`GinParams::to_template_context` after the two inherited layers, in source
order, with the conditional `database_type` insertion and the derived
`server_addr`. -/
def gin_framework_pairs (gp : GinParams) : Ctx :=
  [(rs "host", .str gp.host),
   (rs "port", .num gp.port),
   (rs "enable_swagger", .bool gp.enable_swagger),
   (rs "enable_cors", .bool gp.enable_cors),
   (rs "enable_logging", .bool gp.enable_logging),
   (rs "enable_recovery", .bool gp.enable_recovery),
   (rs "enable_rate_limit", .bool gp.enable_rate_limit),
   (rs "enable_jwt", .bool gp.enable_jwt),
   (rs "enable_database", .bool gp.enable_database),
   (rs "enable_redis", .bool gp.enable_redis),
   (rs "enable_precommit", .bool gp.enable_precommit)] ++
  (match gp.database_type with
   | some db => [(rs "database_type", Value.str db)]
   | none => []) ++
  [(rs "server_addr", .str (gp.host ++ rs ":" ++ nat_decimal gp.port))]

/-- Model of `GinParams::to_template_context`
(src/generators/framework/gin/parameters.rs): a fresh map is extended with
the project layer, then with the Go layer, then the framework keys are
inserted one by one in source order. -/
def GinParams.to_template_context (gp : GinParams) (year : Int)
    (goos goarch : RStr) : Ctx :=
  let c := ctx_extend [] (gp.project.to_template_context year)
  let c := ctx_extend c (gp.go.to_template_context goos goarch)
  let c := ctx_insert c (rs "host") (.str gp.host)
  let c := ctx_insert c (rs "port") (.num gp.port)
  let c := ctx_insert c (rs "enable_swagger") (.bool gp.enable_swagger)
  let c := ctx_insert c (rs "enable_cors") (.bool gp.enable_cors)
  let c := ctx_insert c (rs "enable_logging") (.bool gp.enable_logging)
  let c := ctx_insert c (rs "enable_recovery") (.bool gp.enable_recovery)
  let c := ctx_insert c (rs "enable_rate_limit") (.bool gp.enable_rate_limit)
  let c := ctx_insert c (rs "enable_jwt") (.bool gp.enable_jwt)
  let c := ctx_insert c (rs "enable_database") (.bool gp.enable_database)
  let c := ctx_insert c (rs "enable_redis") (.bool gp.enable_redis)
  let c := ctx_insert c (rs "enable_precommit") (.bool gp.enable_precommit)
  let c :=
    match gp.database_type with
    | some db => ctx_insert c (rs "database_type") (.str db)
    | none => c
  ctx_insert c (rs "server_addr")
    (.str (gp.host ++ rs ":" ++ nat_decimal gp.port))

/-- Model of `TemplateEngine::render_template` (src/template_engine.rs): the
template is read from the embedded store at the given relative path and
rendered against the context; a missing file is an error. -/
def render_template (store : Dir) (path : RStr) (ctx : Ctx) : Except RStr RStr :=
  match dir_get_file_s store path with
  | none => .error (rs "Embedded template file not found")
  | some content => render_template_content content ctx

/-- Model of `GinGenerator::should_skip_swagger_file`
(src/generators/framework/gin/generator.rs): with Swagger disabled, a file is
skipped when its name contains "swagger", starts with "docs.go", or ends with
one of the generated document names; with Swagger enabled nothing is skipped. -/
def should_skip_swagger_file (file_name : RStr) (params : GinParams) : Bool :=
  if !params.enable_swagger then
    contains_sub file_name (rs "swagger") ||
    (rs "docs.go").isPrefixOf file_name ||
    (rs "swagger.json.tmpl").isSuffixOf file_name ||
    (rs "swagger.yaml.tmpl").isSuffixOf file_name
  else false

/-- Model of `GinGenerator::should_skip_precommit_file`
(src/generators/framework/gin/generator.rs): with pre-commit disabled, the
two pre-commit configuration names are skipped; with it enabled nothing is. -/
def should_skip_precommit_file (file_name : RStr) (params : GinParams) : Bool :=
  if !params.enable_precommit then
    file_name == rs ".pre-commit-config.yaml.tmpl" ||
    file_name == rs ".pre-commit-config.yaml"
  else false

/-- Output path of the Gin walk for a root-relative file: the `.tmpl`
extension, when it is the extension, is removed (`with_extension("")`). -/
def gin_out_rel (rel : RStr) : RStr :=
  if rust_path_extension rel == some (rs "tmpl") then
    rust_with_extension_empty rel
  else rel

/-- Per-file step of `GinGenerator::render_templates`
(src/generators/framework/gin/generator.rs).  The walked path is first made
relative to the template root (`strip_prefix`, whose failure aborts via `?`),
then the two skip predicates run on the base name; a kept `.tmpl` file is
rendered from the embedded store (`process_template_file` →
`render_template`), a kept static file is copied with its on-disk content.
The pair carries the walked path and that on-disk content. -/
def gin_process_one (store : Dir) (ctx : Ctx) (template_path : RStr)
    (params : GinParams) (fc : RStr × RStr) :
    Except RStr (Option (RStr × RStr)) :=
  match strip_prefix_l (template_path ++ rs "/") fc.1 with
  | none => .error (rs "failed to make the walked path relative")
  | some rel =>
    let file_name := base_name fc.1
    if should_skip_swagger_file file_name params then .ok none
    else if should_skip_precommit_file file_name params then .ok none
    else
      let out := gin_out_rel rel
      if rust_path_extension fc.1 == some (rs "tmpl") then
        match render_template store fc.1 ctx with
        | .error e => .error e
        | .ok rendered => .ok (some (out, rendered))
      else .ok (some (out, fc.2))

/-- Loop of `GinGenerator::render_templates` over the walked files (the
enumeration of the directory walk is an external input, given as path/content
pairs); the first error aborts the walk. -/
def gin_render_templates (store : Dir) (template_path : RStr) :
    List (RStr × RStr) → Ctx → GinParams → Except RStr (List (RStr × RStr))
  | [], _, _ => .ok []
  | fc :: fs, ctx, params =>
    match gin_process_one store ctx template_path params fc with
    | .error e => .error e
    | .ok none => gin_render_templates store template_path fs ctx params
    | .ok (some o) =>
      match gin_render_templates store template_path fs ctx params with
      | .error e => .error e
      | .ok rest => .ok (o :: rest)

/-- Model of `ProjectParams::validate`
(src/generators/project/parameters.rs): the name check it resolves to is the
`mod validation` one of parameters.rs, then the license must be non-empty. -/
def ProjectParams.validate (p : ProjectParams) : Except RStr Unit :=
  match parameters_validate_project_name p.name with
  | .error e => .error e
  | .ok () =>
    if p.license = [] then .error (rs "License cannot be empty")
    else .ok ()

/-- Relative store path of the license template requested by the parameters
(`format!("licenses/{}.tmpl", params.license())`). -/
def license_template_path (p : ProjectParams) : RStr :=
  rs "licenses/" ++ p.license ++ rs ".tmpl"

/-- Model of `ProjectGenerator::generate_license`
(src/generators/project/generator.rs): when the requested license template is
absent from the embedded store the step is a hard error; otherwise the
template is rendered against the project context (with the Git author, an
environment input passed as an argument, injected when the parameters carry
no author) and written to `LICENSE`. -/
def generate_license (store : Dir) (p : ProjectParams) (git_author : RStr)
    (year : Int) : Except RStr (RStr × RStr) :=
  if (dir_get_file_s store (license_template_path p)).isSome = false then
    .error (rs "License template not found")
  else
    let ctx := p.to_template_context year
    let ctx :=
      match p.author with
      | none => ctx_insert ctx (rs "author") (.str git_author)
      | some _ => ctx
    match render_template store (license_template_path p) ctx with
    | .error e => .error e
    | .ok rendered => .ok (rs "LICENSE", rendered)

/-- Model of `ProjectGenerator::generate`
(src/generators/project/generator.rs): validation, then license generation;
the subsequent Git-init and pre-commit-install steps always return `Ok` in
the source (failures are printed as warnings), so an error can only come
from the first two steps and aborts the run. -/
def project_generate (store : Dir) (p : ProjectParams) (git_author : RStr)
    (year : Int) : Except RStr (List (RStr × RStr)) :=
  match p.validate with
  | .error e => .error e
  | .ok () =>
    match generate_license store p git_author year with
    | .error e => .error e
    | .ok out => .ok [out]

/-- Lexical (dictionary) order on paths, the order the spec asserts for
`list_files`.  Modelled from the spec: "deterministic ordering (lexical by
path)". -/
def lex_lt : RStr → RStr → Bool
  | [], [] => false
  | [], _ :: _ => true
  | _ :: _, [] => false
  | a :: as, b :: bs => if a < b then true else if b < a then false else lex_lt as bs

/-- Concrete two-level store: a file `b` beside a subdirectory `a` holding
`a/x`.  Used to exhibit the enumeration order of the walk. -/
def sample_store_order : Dir :=
  .node [(rs "b", rs "1")] [(rs "a", .node [(rs "x", rs "2")] [])]

/-- Concrete store with one template file and one static file at the root. -/
def sample_store_readme : Dir :=
  .node [(rs "README.md.tmpl", rs "hi"), (rs "LICENSE", rs "MIT")] []

/-- Concrete store holding only a pre-commit template at the root. -/
def sample_store_precommit : Dir :=
  .node [(rs ".pre-commit-config.yaml.tmpl", rs "x")] []

/-- Concrete store for the Gin walk: the namespace directory `t` holds a
pre-commit template and a Swagger artifact. -/
def sample_store_gin : Dir :=
  .node []
    [(rs "t",
      .node [(rs ".pre-commit-config.yaml.tmpl", rs "x"),
             (rs "swagger.yaml.tmpl", rs "y")] [])]

/-- Walked file list matching `sample_store_gin`. -/
def sample_gin_files : List (RStr × RStr) :=
  [(rs "t/.pre-commit-config.yaml.tmpl", rs "x"),
   (rs "t/swagger.yaml.tmpl", rs "y")]

/-- Concrete project parameters requesting the MIT license. -/
def sample_project_params : ProjectParams :=
  { name := rs "demo", description := none, author := none,
    license := rs "MIT", enable_git := true, version := rs "0.1.0" }

/-- Concrete Go parameters. -/
def sample_go_params : GoParams :=
  { version := rs "1.21", module_name := rs "github.com/example/demo",
    enable_modules := true, enable_cgo := false, build_tags := [],
    enable_vendor := false }

/-- Concrete Gin parameters with every feature enabled except Swagger and
the database. -/
def sample_gin_params_precommit_on : GinParams :=
  { project := sample_project_params, go := sample_go_params,
    host := rs "localhost", port := 8080, enable_swagger := false,
    enable_cors := true, enable_logging := true, enable_recovery := true,
    enable_rate_limit := false, enable_jwt := false, enable_database := false,
    database_type := none, enable_redis := false, enable_precommit := true }

/-- Concrete Gin parameters with pre-commit disabled and Swagger enabled. -/
def sample_gin_params_precommit_off : GinParams :=
  { sample_gin_params_precommit_on with
    enable_precommit := false, enable_swagger := true }

/-- The empty embedded store. -/
def empty_store : Dir := .node [] []

/-- Identifier characters of a template variable reference. -/
def ident_char (c : Char) : Bool := c.isAlphanum || c == '_'

/-- Files kept by the Gin walk, i.e. matched by neither of its two skip
predicates. -/
def gin_keep (params : GinParams) (fc : RStr × RStr) : Bool :=
  !should_skip_swagger_file (base_name fc.1) params &&
  !should_skip_precommit_file (base_name fc.1) params

/-- Concrete store holding a build-system file beside an ordinary file. -/
def sample_store_cargo : Dir :=
  .node [(rs "Cargo.toml", rs "c"), (rs "app.txt", rs "a")] []


lemma ctx_find_filter_self (m : Ctx) (k : RStr) :
    (m.filter (fun p => p.1 != k)).find? (fun p => p.1 == k) = none := by
  induction m with
  | nil => rfl
  | cons p m ih =>
    by_cases h : p.1 = k
    · have hb : (p.1 != k) = false := by rw [bne, beq_iff_eq.mpr h]; rfl
      rw [List.filter_cons, hb]
      simp only [if_neg Bool.false_ne_true]
      exact ih
    · have hb : (p.1 != k) = true := by rw [bne, beq_false_of_ne h]; rfl
      rw [List.filter_cons, hb]
      simp only [if_true]
      rw [List.find?_cons_of_neg _ (by simp [h]), ih]

lemma ctx_find_filter_other (m : Ctx) (k k' : RStr) (h : k' ≠ k) :
    (m.filter (fun p => p.1 != k)).find? (fun p => p.1 == k') =
      m.find? (fun p => p.1 == k') := by
  induction m with
  | nil => rfl
  | cons p m ih =>
    by_cases hk : p.1 = k
    · have hb : (p.1 != k) = false := by rw [bne, beq_iff_eq.mpr hk]; rfl
      have hk' : p.1 ≠ k' := by
        rw [hk]
        exact fun hc => h hc.symm
      rw [List.filter_cons, hb]
      simp only [if_neg Bool.false_ne_true]
      rw [ih, List.find?_cons_of_neg _ (by simp [hk'])]
    · have hb : (p.1 != k) = true := by rw [bne, beq_false_of_ne hk]; rfl
      rw [List.filter_cons, hb]
      simp only [if_true]
      by_cases hk'' : p.1 = k'
      · rw [List.find?_cons_of_pos _ (by simp [hk'']),
          List.find?_cons_of_pos _ (by simp [hk''])]
      · rw [List.find?_cons_of_neg _ (by simp [hk'']),
          List.find?_cons_of_neg _ (by simp [hk'']), ih]

lemma ctx_lookup_insert (m : Ctx) (k : RStr) (v : Value) (k' : RStr) :
    ctx_lookup (ctx_insert m k v) k' =
      if k' = k then some v else ctx_lookup m k' := by
  unfold ctx_lookup ctx_insert
  rw [List.find?_append]
  by_cases h : k' = k
  · subst h
    rw [ctx_find_filter_self]
    simp [List.find?]
  · rw [ctx_find_filter_other m k k' h, if_neg h]
    have hb : ((k, v).1 == k') = false := beq_false_of_ne (fun hc => h hc.symm)
    cases hf : m.find? (fun p => p.1 == k') <;>
      simp [List.find?, hb, hf, Option.orElse]

lemma layer_last_value_cons (a : RStr) (b : Value) (layer : Ctx) (k : RStr) :
    layer_last_value ((a, b) :: layer) k =
      match layer_last_value layer k with
      | some v => some v
      | none => if a = k then some b else none := by
  unfold layer_last_value
  rw [List.reverse_cons, List.find?_append]
  cases hf : layer.reverse.find? (fun p => p.1 == k) with
  | some p => simp [hf, Option.orElse]
  | none =>
    by_cases h : a = k
    · simp [hf, List.find?, beq_iff_eq.mpr h, h, Option.orElse]
    · simp [hf, List.find?, beq_false_of_ne h, h, Option.orElse]

lemma ctx_lookup_extend (m layer : Ctx) (k : RStr) :
    ctx_lookup (ctx_extend m layer) k =
      match layer_last_value layer k with
      | some v => some v
      | none => ctx_lookup m k := by
  induction layer generalizing m with
  | nil => rfl
  | cons p layer ih =>
    have step : ctx_extend m (p :: layer) = ctx_extend (ctx_insert m p.1 p.2) layer := rfl
    rw [step, ih, layer_last_value_cons p.1 p.2 layer k, ctx_lookup_insert]
    cases hl : layer_last_value layer k with
    | some v => simp
    | none =>
      by_cases h : p.1 = k
      · subst h
        simp
      · have h' : ¬k = p.1 := fun hc => h hc.symm
        simp [h, h']

lemma merge_layers_foldl (layers : List Ctx) (m : Ctx) (k : RStr) :
    ctx_lookup (layers.foldl ctx_extend m) k =
      layers.foldl
        (fun acc layer =>
          match layer_last_value layer k with
          | some v => some v
          | none => acc)
        (ctx_lookup m k) := by
  induction layers generalizing m with
  | nil => rfl
  | cons layer layers ih =>
    rw [List.foldl_cons, List.foldl_cons, ih, ctx_lookup_extend]

/-- C7: merging an ordered list of parameter layers into a rendering context
is total (it is a plain fold with no error path) and last-write-wins: the
merged context maps each key to the value contributed by the latest layer in
list order that defines it; and `GinParams::to_template_context` is exactly
this merge of its project layer, then its Go (language) layer, then its
framework pairs. -/
theorem merge_last_write_wins :
    (∀ (layers : List Ctx) (k : RStr),
      ctx_lookup (merge_layers layers) k = spec_last_write layers k) ∧
    (∀ (gp : GinParams) (year : Int) (goos goarch : RStr),
      GinParams.to_template_context gp year goos goarch =
        merge_layers
          [gp.project.to_template_context year,
           gp.go.to_template_context goos goarch,
           gin_framework_pairs gp]) := by
  constructor
  · intro layers k
    unfold merge_layers spec_last_write
    rw [merge_layers_foldl]
    rfl
  · intro gp year goos goarch
    unfold GinParams.to_template_context merge_layers gin_framework_pairs
    cases gp.database_type <;> rfl

lemma regex_char_not_invalid (c : Char)
    (h : (c.isAlphanum || c == '-' || c == '_') = true) :
    invalid_project_char c = false := by
  have h1 : c ≠ '<' := by rintro rfl; revert h; decide
  have h2 : c ≠ '>' := by rintro rfl; revert h; decide
  have h3 : c ≠ ':' := by rintro rfl; revert h; decide
  have h4 : c ≠ '\"' := by rintro rfl; revert h; decide
  have h5 : c ≠ '|' := by rintro rfl; revert h; decide
  have h6 : c ≠ '?' := by rintro rfl; revert h; decide
  have h7 : c ≠ '*' := by rintro rfl; revert h; decide
  have h8 : c ≠ '\\' := by rintro rfl; revert h; decide
  have h9 : c ≠ '/' := by rintro rfl; revert h; decide
  unfold invalid_project_char
  rw [beq_false_of_ne h1, beq_false_of_ne h2, beq_false_of_ne h3,
    beq_false_of_ne h4, beq_false_of_ne h5, beq_false_of_ne h6,
    beq_false_of_ne h7, beq_false_of_ne h8, beq_false_of_ne h9]
  rfl

/-- C4, counterexample: `validate_project_name` accepts `"my app"`, a name
containing whitespace the claim says must be rejected, and rejects a
101-character run of `a`, a name matching `[A-Za-z0-9_-]+` the claim says
must be accepted. -/
theorem validate_project_name_claim_false :
    (validate_project_name (rs "my app") = .ok () ∧ ' ' ∈ rs "my app") ∧
    (validate_project_name (List.replicate 101 'a') =
        .error (rs "Project name is too long") ∧
      ∀ c ∈ List.replicate 101 'a', c.isAlphanum = true) :=
  ⟨⟨rfl, by decide⟩, ⟨rfl, by decide⟩⟩

/-- C4, amended: `validate_project_name`
(src/generators/core/validation.rs) accepts exactly the non-empty names of at
most 100 characters containing none of the filesystem-reserved characters
`<`, `>`, `:`, `"`, `|`, `?`, `*`, `\`, `/`; in particular every name of
`[A-Za-z0-9_-]` characters with length in `[1, 100]` is accepted, while
whitespace and other printable characters are not rejected. -/
theorem validate_project_name_characterization :
    (∀ name : RStr, name ≠ [] → name.length ≤ 100 →
      (∀ c ∈ name, (c.isAlphanum || c == '-' || c == '_') = true) →
      validate_project_name name = .ok ()) ∧
    (∀ name : RStr,
      validate_project_name name = .ok () ↔
        (name ≠ [] ∧ name.length ≤ 100 ∧
          ∀ c ∈ name, invalid_project_char c = false)) := by
  constructor
  · intro name h1 h2 h3
    have hany : name.any invalid_project_char = false := by
      rw [List.any_eq_false]
      intro c hc
      rw [regex_char_not_invalid c (h3 c hc)]
      simp
    unfold validate_project_name
    rw [if_neg h1, if_neg (by omega), if_neg (by rw [hany]; simp)]
  · intro name
    unfold validate_project_name
    by_cases h1 : name = []
    · rw [if_pos h1]
      simp [h1]
    · by_cases h2 : 100 < name.length
      · rw [if_neg h1, if_pos h2]
        have : ¬name.length ≤ 100 := by omega
        simp [this]
      · by_cases h3 : name.any invalid_project_char = true
        · rw [if_neg h1, if_neg h2, if_pos h3]
          constructor
          · intro hok
            exact absurd hok (by simp)
          · rintro ⟨-, -, hall⟩
            obtain ⟨c, hc, hcp⟩ := List.any_eq_true.mp h3
            rw [hall c hc] at hcp
            exact absurd hcp (by simp)
        · have h3' : name.any invalid_project_char = false := by
            cases hb : name.any invalid_project_char with
            | false => rfl
            | true => exact absurd hb h3
          rw [if_neg h1, if_neg h2, if_neg h3]
          constructor
          · intro _
            refine ⟨h1, by omega, ?_⟩
            intro c hc
            have hnc := List.any_eq_false.mp h3' c hc
            cases hcb : invalid_project_char c with
            | false => rfl
            | true => exact absurd hcb hnc
          · intro _
            rfl

/-- C4, witness: a name drawn from `[A-Za-z0-9_-]` of length 10 is accepted. -/
theorem validate_project_name_characterization_witness :
    validate_project_name (rs "demo-app_1") = .ok () :=
  validate_project_name_characterization.1 (rs "demo-app_1")
    (by decide) (by decide) (by decide)

/-- C5, counterexample: `to_camel_case` applied to `"hello-world"` yields
`"HelloWorld"` (PascalCase), not the claimed `"helloWorld"`, and applied to
the underscore-delimited `"hello_world"` it does not yield `"helloWorld"`
either, since underscores are not treated as delimiters. -/
theorem to_camel_case_claim_false :
    to_camel_case (rs "hello-world") ≠ rs "helloWorld" ∧
    to_camel_case (rs "hello_world") ≠ rs "helloWorld" := by
  exact ⟨by decide, by decide⟩

/-- C5, amended: the renderer's helper `to_camel_case` splits on hyphens
only and capitalizes every piece including the first (PascalCase), so
`"hello-world"` becomes `"HelloWorld"` and `"hello_world"` becomes
`"Hello_world"`; the helper `to_snake_case` lowercases and turns hyphens
into underscores, so both delimited forms yield `"hello_world"`. -/
theorem case_helpers_behaviour :
    to_camel_case (rs "hello-world") = rs "HelloWorld" ∧
    to_camel_case (rs "hello_world") = rs "Hello_world" ∧
    to_snake_case (rs "hello-world") = rs "hello_world" ∧
    to_snake_case (rs "hello_world") = rs "hello_world" := by
  exact ⟨by decide, by decide, by decide, by decide⟩

lemma scan_close_of_no_rbrace (k : RStr) (h : ∀ c ∈ k, c ≠ rbrace) :
    scan_close (k ++ [rbrace, rbrace]) = some (k, []) := by
  induction k with
  | nil => rfl
  | cons c k ih =>
    have hcr : c ≠ rbrace := h c (by simp)
    cases k with
    | nil => simp [scan_close, hcr]
    | cons d k2 =>
      have hcd : ¬(c = rbrace ∧ d = rbrace) := fun hp => hcr hp.1
      have ih' := ih (fun x hx => h x (by simp [hx]))
      simp only [List.cons_append] at ih' ⊢
      rw [scan_close, if_neg hcd, ih']

lemma dropWhile_no_space (l : RStr) (h : ∀ c ∈ l, is_space_c c = false) :
    l.dropWhile is_space_c = l := by
  cases l with
  | nil => rfl
  | cons c l => simp [List.dropWhile, h c (by simp)]

lemma trim_chars_no_space (k : RStr) (h : ∀ c ∈ k, is_space_c c = false) :
    trim_chars k = k := by
  unfold trim_chars
  rw [dropWhile_no_space k h,
    dropWhile_no_space k.reverse (fun c hc => h c (List.mem_reverse.mp hc)),
    List.reverse_reverse]

lemma split_on_char_no_sep (sep : Char) (k : RStr) (h : ∀ c ∈ k, c ≠ sep) :
    split_on_char sep k = [k] := by
  induction k with
  | nil => rfl
  | cons c k ih =>
    have ih' := ih (fun x hx => h x (by simp [hx]))
    have hc : (c == sep) = false := beq_false_of_ne (h c (by simp))
    rw [split_on_char, ih', hc]
    rfl

lemma split_words_single (k : RStr) (hne : k ≠ [])
    (h : ∀ c ∈ k, is_space_c c = false) :
    split_words k = [k] := by
  unfold split_words
  have hns : ∀ c ∈ k, c ≠ ' ' := by
    intro c hc hceq
    have := h c hc
    rw [hceq] at this
    exact absurd this (by decide)
  rw [split_on_char_no_sep ' ' k hns]
  have hbne : (k != []) = true := bne_iff_ne.mpr hne
  simp [List.filter, hbne]

lemma ident_char_not_rbrace {c : Char} (h : ident_char c = true) : c ≠ rbrace := by
  intro hc
  rw [hc] at h
  exact absurd h (by decide)

lemma ident_char_not_space {c : Char} (h : ident_char c = true) :
    is_space_c c = false := by
  cases hb : is_space_c c with
  | false => rfl
  | true =>
    have hc : c = ' ' := beq_iff_eq.mp hb
    rw [hc] at h
    exact absurd h (by decide)

lemma parse_template_single_var (k : RStr) (hne : k ≠ [])
    (hid : ∀ c ∈ k, ident_char c = true) :
    parse_template ([lbrace, lbrace] ++ k ++ [rbrace, rbrace]) = .ok [.var k] := by
  have hnr : ∀ c ∈ k, c ≠ rbrace := fun c hc => ident_char_not_rbrace (hid c hc)
  have hns : ∀ c ∈ k, is_space_c c = false := fun c hc => ident_char_not_space (hid c hc)
  have hexpr : parse_expr k = .ok (.var k) := by
    unfold parse_expr
    rw [trim_chars_no_space k hns, split_words_single k hne hns]
  have hfuel : ([lbrace, lbrace] ++ k ++ [rbrace, rbrace]).length + 1 = k.length + 5 := by
    simp [List.length_append]
  unfold parse_template
  rw [hfuel]
  show parse_toks (k.length + 4 + 1)
      (lbrace :: lbrace :: (k ++ [rbrace, rbrace])) = .ok [.var k]
  have hrest : parse_toks (k.length + 4) [] = .ok [] := rfl
  rw [parse_toks]
  simp [scan_close_of_no_rbrace k hnr, hexpr, hrest]

/-- C1, amended: the engine built by `TemplateEngine::new` never enables
strict mode, so rendering a template that references a key absent from the
context does not fail with a `RenderError`: the undefined variable is
silently substituted with the empty string.  For every identifier `k` and
every context lacking `k`, rendering the template consisting of the
placeholder for `k` succeeds and produces empty output. -/
theorem render_missing_key_nonstrict :
    ∀ (k : RStr) (ctx : Ctx), k ≠ [] → (∀ c ∈ k, ident_char c = true) →
      ctx_lookup ctx k = none →
      render_template_content ([lbrace, lbrace] ++ k ++ [rbrace, rbrace]) ctx =
        .ok [] := by
  intro k ctx h1 h2 h3
  unfold render_template_content
  rw [parse_template_single_var k h1 h2]
  simp [render_toks, h3]

/-- C1, witness: rendering the placeholder for `undefined_key` against the
empty context succeeds with empty output. -/
theorem render_missing_key_nonstrict_witness :
    render_template_content
      ([lbrace, lbrace] ++ rs "undefined_key" ++ [rbrace, rbrace]) [] = .ok [] :=
  render_missing_key_nonstrict (rs "undefined_key") [] (by decide) (by decide) rfl

/-- C1, counterexample: the template referencing `undefined_key` rendered
against a context lacking that key returns `Ok` with empty output instead of
the `RenderError` the claim requires. -/
theorem render_missing_key_claim_false :
    render_template_content
        ([lbrace, lbrace] ++ rs "undefined_key" ++ [rbrace, rbrace]) [] =
      .ok [] ∧
    ctx_lookup [] (rs "undefined_key") = none :=
  ⟨rfl, rfl⟩

lemma tp_process_one_ok (store : Dir) (ctx : Ctx) (tp f : RStr)
    (o : RStr × RStr) (h : tp_process_one store ctx tp f = .ok o) :
    o.1 = tp_out_rel tp f ∧
      ((rs ".tmpl").isSuffixOf f = false → dir_get_file_s store f = some o.2) := by
  simp only [tp_process_one] at h
  split at h
  next hsuf =>
    split at h
    next content hget =>
      split at h
      next e hrend => exact absurd h (by simp)
      next r hrend =>
        injection h with h'
        subst h'
        refine ⟨rfl, ?_⟩
        intro hc
        rw [hsuf] at hc
        exact absurd hc (by simp)
    next hget => exact absurd h (by simp)
  next hsuf =>
    split at h
    next content hget =>
      injection h with h'
      subst h'
      exact ⟨rfl, fun _ => hget⟩
    next hget => exact absurd h (by simp)

lemma tp_process_files_forall₂ (store : Dir) (ctx : Ctx) (tp : RStr) :
    ∀ (fs : List RStr) (outs : List (RStr × RStr)),
      tp_process_files store ctx tp fs = .ok outs →
      List.Forall₂
        (fun f o => o.1 = tp_out_rel tp f ∧
          ((rs ".tmpl").isSuffixOf f = false → dir_get_file_s store f = some o.2))
        fs outs := by
  intro fs
  induction fs with
  | nil =>
    intro outs h
    injection h with h'
    subst h'
    exact .nil
  | cons f fs ih =>
    intro outs h
    simp only [tp_process_files] at h
    split at h
    next e hone => exact absurd h (by simp)
    next o hone =>
      split at h
      next e hrest => exact absurd h (by simp)
      next rest hrest =>
        injection h with h'
        subst h'
        exact .cons (tp_process_one_ok store ctx tp f o hone) (ih rest hrest)

lemma scaffold_process_one_ok_name (store : Dir) (params : Ctx) (f : RStr)
    (o : RStr × RStr) (h : scaffold_process_one store params f = .ok (some o)) :
    o.1 = base_name f := by
  simp only [scaffold_process_one] at h
  split at h
  next hskip => exact absurd h (by simp)
  next hskip =>
    split at h
    next hsuf =>
      split at h
      next content hget =>
        split at h
        next e hrend => exact absurd h (by simp)
        next r hrend =>
          injection h with h'
          injection h' with h''
          subst h''
          rfl
      next hget => exact absurd h (by simp)
    next hsuf =>
      split at h
      next content hget =>
        injection h with h'
        injection h' with h''
        subst h''
        rfl
      next hget => exact absurd h (by simp)

/-- C2, amended: in `TemplateProcessor::process_embedded_template_directory`
every output corresponds one-to-one with an enumerated file, its path being
the namespace-relative input path with the `.tmpl` marker stripped when
present (a file without the marker keeps its name), and a static
(non-template) file's output content is exactly the stored content; the
`Scaffold` embedded walk, by contrast, writes each kept file under its bare
base name, keeping the `.tmpl` marker. -/
theorem tree_processor_output_paths :
    (∀ (store : Dir) (tp : RStr) (ctx : Ctx) (outs : List (RStr × RStr)),
      process_embedded_template_directory store tp ctx = .ok outs →
      List.Forall₂
        (fun f o => o.1 = tp_out_rel tp f ∧
          ((rs ".tmpl").isSuffixOf f = false → dir_get_file_s store f = some o.2))
        (get_embedded_template_files store tp) outs) ∧
    (∀ (store : Dir) (params : Ctx) (f : RStr) (o : RStr × RStr),
      scaffold_process_one store params f = .ok (some o) → o.1 = base_name f) := by
  constructor
  · intro store tp ctx outs h
    exact tp_process_files_forall₂ store ctx tp _ outs h
  · intro store params f o h
    exact scaffold_process_one_ok_name store params f o h

/-- C2, witness: on a store holding `README.md.tmpl` and `LICENSE` at the
root, the processed outputs are `README.md` (marker stripped) and `LICENSE`
with its stored content. -/
theorem tree_processor_output_paths_witness :
    List.Forall₂
      (fun f o => o.1 = tp_out_rel [] f ∧
        ((rs ".tmpl").isSuffixOf f = false →
          dir_get_file_s sample_store_readme f = some o.2))
      (get_embedded_template_files sample_store_readme [])
      [(rs "README.md", rs "hi"), (rs "LICENSE", rs "MIT")] :=
  tree_processor_output_paths.1 sample_store_readme [] [] _ rfl

/-- C2, counterexample: the `Scaffold` embedded walk (the other tree
processor named by the claim) emits the stored `README.md.tmpl` under the
path `README.md.tmpl` — the marker suffix is not stripped, so no `README.md`
is produced. -/
theorem scaffold_marker_claim_false :
    scaffold_process sample_store_readme [] =
      .ok [(rs "README.md.tmpl", rs "hi"), (rs "LICENSE", rs "MIT")] ∧
    rs "README.md" ∉ [rs "README.md.tmpl", rs "LICENSE"] :=
  ⟨rfl, by decide⟩

lemma scaffold_files_no_cargo (store : Dir) (params : Ctx) :
    ∀ (fs : List RStr) (outs : List (RStr × RStr)),
      scaffold_process_files store params fs = .ok outs →
      ∀ o ∈ outs, o.1 ≠ rs "Cargo.toml" ∧ o.1 ≠ rs "Cargo.lock" := by
  intro fs
  induction fs with
  | nil =>
    intro outs h
    injection h with h'
    subst h'
    intro o ho
    exact absurd ho (by simp)
  | cons f fs ih =>
    intro outs h
    simp only [scaffold_process_files] at h
    split at h
    next hcargo => exact ih outs h
    next hcargo =>
      split at h
      next e hone => exact absurd h (by simp)
      next hone => exact ih outs h
      next o hone =>
        split at h
        next e hrest => exact absurd h (by simp)
        next rest hrest =>
          injection h with h'
          subst h'
          intro x hx
          rcases List.mem_cons.mp hx with hx | hx
          · have hname := scaffold_process_one_ok_name store params f o hone
            rw [hx, hname]
            constructor
            · intro hc
              exact hcargo (by rw [hc]; simp)
            · intro hc
              exact hcargo (by rw [hc]; simp)
          · exact ih rest hrest x hx

/-- C10: the `Scaffold` embedded walk never produces an output file named
`Cargo.toml` or `Cargo.lock`: those base names are passed over before any
other handling, independent of every parameter, and all other files are
written under their own base names. -/
theorem scaffold_excludes_cargo_files :
    ∀ (store : Dir) (params : Ctx) (outs : List (RStr × RStr)),
      scaffold_process store params = .ok outs →
      ∀ o ∈ outs, o.1 ≠ rs "Cargo.toml" ∧ o.1 ≠ rs "Cargo.lock" := by
  intro store params outs h
  exact scaffold_files_no_cargo store params _ outs h

/-- C10, witness: on a store holding `Cargo.toml` beside `app.txt`, the walk
emits only `app.txt`, and that output is named neither `Cargo.toml` nor
`Cargo.lock`. -/
theorem scaffold_excludes_cargo_files_witness :
    ((rs "app.txt", rs "a") : RStr × RStr).1 ≠ rs "Cargo.toml" ∧
      ((rs "app.txt", rs "a") : RStr × RStr).1 ≠ rs "Cargo.lock" :=
  scaffold_excludes_cargo_files sample_store_cargo [] [(rs "app.txt", rs "a")] rfl
    (rs "app.txt", rs "a") (by decide)

lemma strip_prefix_l_some (p : List Char) :
    ∀ (l r : List Char), strip_prefix_l p l = some r → l = p ++ r := by
  induction p with
  | nil =>
    intro l r h
    injection h
  | cons c p ih =>
    intro l r h
    cases l with
    | nil => exact absurd h (by simp [strip_prefix_l])
    | cons d l =>
      simp only [strip_prefix_l] at h
      split at h
      next hcd =>
        rw [List.cons_append, hcd, ih l r h]
      next hcd => exact absurd h (by simp)

lemma last_split_cons (sep c : Char) (cs : List Char) :
    last_split sep (c :: cs) =
      match last_split sep cs with
      | some (pre, post) => some (c :: pre, post)
      | none => if c = sep then some ([], cs) else none := rfl

lemma last_split_none (sep : Char) :
    ∀ (l : List Char), last_split sep l = none → sep ∉ l := by
  intro l
  induction l with
  | nil => intro _ h; exact absurd h (by simp)
  | cons c cs ih =>
    intro h
    rw [last_split_cons] at h
    cases hcs : last_split sep cs with
    | some pq => rw [hcs] at h; exact absurd h (by simp)
    | none =>
      rw [hcs] at h
      by_cases hc : c = sep
      · rw [if_pos hc] at h
        exact absurd h (by simp)
      · intro hmem
        rcases List.mem_cons.mp hmem with hmem | hmem
        · exact hc hmem.symm
        · exact ih hcs hmem

lemma last_split_some (sep : Char) :
    ∀ (l pre post : List Char), last_split sep l = some (pre, post) →
      l = pre ++ sep :: post ∧ sep ∉ post := by
  intro l
  induction l with
  | nil => intro pre post h; exact absurd h (by simp [last_split])
  | cons c cs ih =>
    intro pre post h
    rw [last_split_cons] at h
    cases hcs : last_split sep cs with
    | some pq =>
      rw [hcs] at h
      cases pq with
      | mk p2 q2 =>
        injection h with h'
        have h1 : c :: p2 = pre := congrArg Prod.fst h'
        have h2 : q2 = post := congrArg Prod.snd h'
        obtain ⟨hcs1, hcs2⟩ := ih p2 q2 hcs
        constructor
        · rw [← h1, ← h2, List.cons_append, hcs1]
        · rw [← h2]
          exact hcs2
    | none =>
      rw [hcs] at h
      by_cases hc : c = sep
      · rw [if_pos hc] at h
        injection h with h'
        have h1 : ([] : List Char) = pre := congrArg Prod.fst h'
        have h2 : cs = post := congrArg Prod.snd h'
        constructor
        · rw [← h1, ← h2, hc]
          rfl
        · rw [← h2]
          exact last_split_none sep cs hcs
      · rw [if_neg hc] at h
        exact absurd h (by simp)

lemma base_name_no_slash (p : RStr) : '/' ∉ base_name p := by
  unfold base_name
  cases h : last_split '/' p with
  | some pq =>
    cases pq with
    | mk pre post => exact (last_split_some '/' p pre post h).2
  | none => exact last_split_none '/' p h

lemma base_name_of_no_slash (p : RStr) (h : '/' ∉ p) : base_name p = p := by
  unfold base_name
  cases hs : last_split '/' p with
  | some pq =>
    cases pq with
    | mk pre post =>
      obtain ⟨h1, -⟩ := last_split_some '/' p pre post hs
      exact absurd (h1 ▸ (by simp : '/' ∈ pre ++ '/' :: post)) h
  | none => rfl

lemma base_name_append (a b : RStr) : base_name (a ++ '/' :: b) = base_name b := by
  induction a with
  | nil =>
    show base_name ('/' :: b) = base_name b
    unfold base_name
    rw [last_split_cons]
    cases h : last_split '/' b with
    | some pq => cases pq; simp
    | none => simp
  | cons c a ih =>
    show base_name (c :: (a ++ '/' :: b)) = base_name b
    unfold base_name at ih ⊢
    rw [last_split_cons]
    cases h : last_split '/' (a ++ '/' :: b) with
    | some pq =>
      cases pq with
      | mk pre post =>
        rw [h] at ih
        simpa using ih
    | none =>
      exact absurd (last_split_none '/' _ h) (by simp)

lemma mem_of_mem_stem (n : RStr) (c : Char) (h : c ∈ rust_stem n) : c ∈ n := by
  unfold rust_stem at h
  cases hs : last_split '.' n with
  | none => rw [hs] at h; exact h
  | some pq =>
    cases pq with
    | mk pre post =>
      rw [hs] at h
      cases pre with
      | nil => exact h
      | cons d ds =>
        obtain ⟨h1, -⟩ := last_split_some '.' n (d :: ds) post hs
        rw [h1]
        exact List.mem_append_left _ h

lemma ext_split (n e : RStr) (h : rust_extension n = some e) :
    n = rust_stem n ++ '.' :: e := by
  unfold rust_extension at h
  unfold rust_stem
  cases hs : last_split '.' n with
  | none => rw [hs] at h; exact absurd h (by simp)
  | some pq =>
    cases pq with
    | mk pre post =>
      rw [hs] at h
      cases pre with
      | nil =>
        have h2 : (none : Option RStr) = some e := h
        exact absurd h2 (by simp)
      | cons d ds =>
        have h2 : some post = some e := h
        injection h2 with h3
        subst h3
        show n = (d :: ds) ++ '.' :: post
        exact (last_split_some '.' n (d :: ds) post hs).1

lemma base_with_ext_empty (p : RStr) :
    base_name (rust_with_extension_empty p) = rust_stem (base_name p) := by
  unfold rust_with_extension_empty
  cases h : last_split '/' p with
  | none =>
    have hp : '/' ∉ p := last_split_none '/' p h
    have hbp : base_name p = p := base_name_of_no_slash p hp
    rw [hbp]
    exact base_name_of_no_slash _ (fun hc => hp (mem_of_mem_stem p '/' hc))
  | some pq =>
    cases pq with
    | mk pre aft =>
      obtain ⟨-, haft⟩ := last_split_some '/' p pre aft h
      have hbp : base_name p = aft := by
        unfold base_name
        rw [h]
      rw [hbp, base_name_append]
      exact base_name_of_no_slash _ (fun hc => haft (mem_of_mem_stem aft '/' hc))

lemma gin_out_rel_base (rel : RStr) :
    base_name (gin_out_rel rel) = base_name rel ∨
      base_name rel = base_name (gin_out_rel rel) ++ rs ".tmpl" := by
  unfold gin_out_rel
  cases hx : (rust_path_extension rel == some (rs "tmpl")) with
  | false =>
    rw [if_neg (by simp)]
    exact Or.inl rfl
  | true =>
    rw [if_pos rfl]
    have hext : rust_path_extension rel = some (rs "tmpl") := eq_of_beq hx
    unfold rust_path_extension at hext
    right
    rw [base_with_ext_empty]
    exact ext_split (base_name rel) (rs "tmpl") hext

lemma bool_eq_false {b : Bool} (h : ¬b = true) : b = false := by
  cases b
  · rfl
  · exact absurd rfl h

lemma gin_process_one_ok_some (store : Dir) (ctx : Ctx) (tp : RStr)
    (params : GinParams) (fc : RStr × RStr) (o : RStr × RStr)
    (h : gin_process_one store ctx tp params fc = .ok (some o)) :
    ∃ rel, strip_prefix_l (tp ++ rs "/") fc.1 = some rel ∧
      should_skip_swagger_file (base_name fc.1) params = false ∧
      should_skip_precommit_file (base_name fc.1) params = false ∧
      o.1 = gin_out_rel rel := by
  simp only [gin_process_one] at h
  split at h
  next hstrip => exact absurd h (by simp)
  next rel hstrip =>
    split at h
    next hsw => exact absurd h (by simp)
    next hsw =>
      split at h
      next hpc => exact absurd h (by simp)
      next hpc =>
        refine ⟨rel, hstrip, bool_eq_false hsw, bool_eq_false hpc, ?_⟩
        split at h
        next hext =>
          split at h
          next e hrend => exact absurd h (by simp)
          next r hrend =>
            injection h with h'
            injection h' with h''
            rw [← h'']
        next hext =>
          injection h with h'
          injection h' with h''
          rw [← h'']

lemma gin_render_origin (store : Dir) (tp : RStr) (ctx : Ctx) (params : GinParams) :
    ∀ (files outs : List (RStr × RStr)),
      gin_render_templates store tp files ctx params = .ok outs →
      ∀ o ∈ outs, ∃ fc ∈ files, gin_keep params fc = true ∧
        ∃ rel, strip_prefix_l (tp ++ rs "/") fc.1 = some rel ∧
          o.1 = gin_out_rel rel := by
  intro files
  induction files with
  | nil =>
    intro outs h o ho
    injection h with h'
    subst h'
    exact absurd ho (by simp)
  | cons fc fs ih =>
    intro outs h o ho
    simp only [gin_render_templates] at h
    split at h
    next e hone => exact absurd h (by simp)
    next hone =>
      obtain ⟨fc2, hfc2, hrest⟩ := ih outs h o ho
      exact ⟨fc2, by simp [hfc2], hrest⟩
    next o2 hone =>
      split at h
      next e hrest => exact absurd h (by simp)
      next rest hrest =>
        injection h with h'
        subst h'
        rcases List.mem_cons.mp ho with hx | hx
        · obtain ⟨rel, hstrip, hsw, hpc, hout⟩ :=
            gin_process_one_ok_some store ctx tp params fc o2 hone
          refine ⟨fc, by simp, ?_, rel, hstrip, by rw [hx, hout]⟩
          unfold gin_keep
          rw [hsw, hpc]
          rfl
        · obtain ⟨fc2, hfc2, hrest2⟩ := ih rest hrest o hx
          exact ⟨fc2, by simp [hfc2], hrest2⟩

lemma gin_render_process_ok (store : Dir) (tp : RStr) (ctx : Ctx)
    (params : GinParams) :
    ∀ (files outs : List (RStr × RStr)) (fc : RStr × RStr),
      gin_render_templates store tp files ctx params = .ok outs →
      fc ∈ files →
      ∃ r, gin_process_one store ctx tp params fc = .ok r := by
  intro files
  induction files with
  | nil =>
    intro outs fc _ hmem
    exact absurd hmem (by simp)
  | cons fc2 fs ih =>
    intro outs fc h hmem
    simp only [gin_render_templates] at h
    split at h
    next e hone => exact absurd h (by simp)
    next hone =>
      rcases List.mem_cons.mp hmem with hx | hx
      · exact ⟨none, by rw [hx]; exact hone⟩
      · exact ih outs fc h hx
    next o2 hone =>
      split at h
      next e hrest => exact absurd h (by simp)
      next rest hrest =>
        rcases List.mem_cons.mp hmem with hx | hx
        · exact ⟨some o2, by rw [hx]; exact hone⟩
        · exact ih rest fc hrest hx

lemma gin_render_mem (store : Dir) (tp : RStr) (ctx : Ctx) (params : GinParams) :
    ∀ (files outs : List (RStr × RStr)) (fc o : RStr × RStr),
      gin_render_templates store tp files ctx params = .ok outs →
      fc ∈ files →
      gin_process_one store ctx tp params fc = .ok (some o) →
      o ∈ outs := by
  intro files
  induction files with
  | nil =>
    intro outs fc o _ hmem
    exact absurd hmem (by simp)
  | cons fc2 fs ih =>
    intro outs fc o h hmem hone
    simp only [gin_render_templates] at h
    split at h
    next e hone2 => exact absurd h (by simp)
    next hone2 =>
      rcases List.mem_cons.mp hmem with hx | hx
      · rw [hx] at hone
        rw [hone] at hone2
        exact absurd hone2 (by simp)
      · exact ih outs fc o h hx hone
    next o2 hone2 =>
      split at h
      next e hrest => exact absurd h (by simp)
      next rest hrest =>
        injection h with h'
        subst h'
        rcases List.mem_cons.mp hmem with hx | hx
        · rw [hx] at hone
          rw [hone] at hone2
          injection hone2 with h2
          injection h2 with h3
          rw [h3]
          simp
        · exact List.mem_cons_of_mem _ (ih rest fc o hrest hx hone)

lemma swagger_skip_precommit_name (params : GinParams) :
    should_skip_swagger_file (rs ".pre-commit-config.yaml.tmpl") params = false := by
  unfold should_skip_swagger_file
  cases hsw : params.enable_swagger with
  | false => decide
  | true => decide

lemma gin_process_one_precommit (store : Dir) (ctx : Ctx) (tp : RStr)
    (params : GinParams) (fc : RStr × RStr)
    (hpc : params.enable_precommit = true)
    (hname : base_name fc.1 = rs ".pre-commit-config.yaml.tmpl")
    (rel : RStr) (hstrip : strip_prefix_l (tp ++ rs "/") fc.1 = some rel) :
    (∃ e, gin_process_one store ctx tp params fc = .error e) ∨
    (∃ rend, gin_process_one store ctx tp params fc =
      .ok (some (gin_out_rel rel, rend))) := by
  have hsw : should_skip_swagger_file (base_name fc.1) params = false := by
    rw [hname]
    exact swagger_skip_precommit_name params
  have hpcf : should_skip_precommit_file (base_name fc.1) params = false := by
    unfold should_skip_precommit_file
    rw [hpc]
    rfl
  have hext : rust_path_extension fc.1 = some (rs "tmpl") := by
    unfold rust_path_extension
    rw [hname]
    decide
  cases hrend : render_template store fc.1 ctx with
  | error e =>
    left
    refine ⟨e, ?_⟩
    simp [gin_process_one, hstrip, hsw, hpcf, hext, hrend]
  | ok rend =>
    right
    refine ⟨rend, ?_⟩
    simp [gin_process_one, hstrip, hsw, hpcf, hext, hrend]

/-- C6: with `enable_swagger` false, every file whose name contains
"swagger" or is the generated docs entrypoint `docs.go` is matched by the
Gin swagger skip predicate; with `enable_swagger` true the predicate matches
nothing; and every output of the Gin walk originates from a file matched by
neither skip predicate, so a skipped file contributes nothing to the output
tree. -/
theorem gin_swagger_gating :
    (∀ (name : RStr) (params : GinParams), params.enable_swagger = false →
      (contains_sub name (rs "swagger") = true ∨ name = rs "docs.go") →
      should_skip_swagger_file name params = true) ∧
    (∀ (name : RStr) (params : GinParams), params.enable_swagger = true →
      should_skip_swagger_file name params = false) ∧
    (∀ (store : Dir) (tp : RStr) (files : List (RStr × RStr)) (ctx : Ctx)
      (params : GinParams) (outs : List (RStr × RStr)),
      gin_render_templates store tp files ctx params = .ok outs →
      ∀ o ∈ outs, ∃ fc ∈ files,
        should_skip_swagger_file (base_name fc.1) params = false ∧
        ∃ rel, strip_prefix_l (tp ++ rs "/") fc.1 = some rel ∧
          o.1 = gin_out_rel rel) := by
  refine ⟨?_, ?_, ?_⟩
  · intro name params hsw hor
    unfold should_skip_swagger_file
    rw [hsw]
    rcases hor with hc | hc
    · simp [hc]
    · subst hc
      decide
  · intro name params hsw
    unfold should_skip_swagger_file
    rw [hsw]
    rfl
  · intro store tp files ctx params outs h o ho
    obtain ⟨fc, hmem, hkeep, rel, hstrip, hout⟩ :=
      gin_render_origin store tp ctx params files outs h o ho
    refine ⟨fc, hmem, ?_, rel, hstrip, hout⟩
    unfold gin_keep at hkeep
    cases hsw : should_skip_swagger_file (base_name fc.1) params with
    | false => rfl
    | true =>
      rw [hsw] at hkeep
      simp at hkeep

/-- C6, witness: with Swagger disabled the predicate skips
`api-swagger.json`; with Swagger enabled it passes `docs.go`. -/
theorem gin_swagger_gating_witness :
    should_skip_swagger_file (rs "api-swagger.json")
        sample_gin_params_precommit_on = true ∧
    should_skip_swagger_file (rs "docs.go")
        sample_gin_params_precommit_off = false :=
  ⟨gin_swagger_gating.1 (rs "api-swagger.json") sample_gin_params_precommit_on
      rfl (Or.inl (by decide)),
   gin_swagger_gating.2.1 (rs "docs.go") sample_gin_params_precommit_off rfl⟩

/-- C3, amended: the pre-commit gating holds for the skip predicates and for
the Gin framework walk — with `enable_precommit` false both pre-commit file
names are matched by `GinGenerator::should_skip_precommit_file` (and by
`Scaffold::should_skip_file` when the context carries the flag), and the Gin
walk's output tree holds no file with base name `.pre-commit-config.yaml`;
with `enable_precommit` true, a walked file named
`.pre-commit-config.yaml.tmpl` yields an output with base name
`.pre-commit-config.yaml`, rendered.
`TemplateProcessor::process_embedded_template_directory`, however, consults
no skip predicate, so the claim fails for that walk. -/
theorem precommit_gating :
    (∀ params : GinParams, params.enable_precommit = false →
      should_skip_precommit_file (rs ".pre-commit-config.yaml.tmpl") params = true ∧
      should_skip_precommit_file (rs ".pre-commit-config.yaml") params = true) ∧
    (∀ ctx : Ctx, ctx_lookup ctx (rs "enable_precommit") = some (.bool false) →
      should_skip_file ctx (rs ".pre-commit-config.yaml.tmpl") = true) ∧
    (∀ (store : Dir) (tp : RStr) (files : List (RStr × RStr)) (ctx : Ctx)
      (params : GinParams) (outs : List (RStr × RStr)),
      params.enable_precommit = false →
      gin_render_templates store tp files ctx params = .ok outs →
      ∀ o ∈ outs, base_name o.1 ≠ rs ".pre-commit-config.yaml") ∧
    (∀ (store : Dir) (tp : RStr) (files : List (RStr × RStr)) (ctx : Ctx)
      (params : GinParams) (outs : List (RStr × RStr)) (fc : RStr × RStr),
      params.enable_precommit = true →
      gin_render_templates store tp files ctx params = .ok outs →
      fc ∈ files → base_name fc.1 = rs ".pre-commit-config.yaml.tmpl" →
      ∃ o ∈ outs, base_name o.1 = rs ".pre-commit-config.yaml") := by
  refine ⟨?_, ?_, ?_, ?_⟩
  · intro params hpc
    unfold should_skip_precommit_file
    rw [hpc]
    exact ⟨by decide, by decide⟩
  · intro ctx h
    simp [should_skip_file, h]
  · intro store tp files ctx params outs hpc h o ho hbase
    obtain ⟨fc, hmem, hkeep, rel, hstrip, hout⟩ :=
      gin_render_origin store tp ctx params files outs h o ho
    have hfc1 : fc.1 = (tp ++ rs "/") ++ rel :=
      strip_prefix_l_some (tp ++ rs "/") fc.1 rel hstrip
    have hassoc : (tp ++ rs "/") ++ rel = tp ++ '/' :: rel := by
      rw [List.append_assoc]
      rfl
    have hbase_eq : base_name fc.1 = base_name rel := by
      rw [hfc1, hassoc, base_name_append]
    have hskip : should_skip_precommit_file (base_name fc.1) params = true := by
      rw [hout] at hbase
      rcases gin_out_rel_base rel with hcase | hcase
      · rw [hcase] at hbase
        rw [hbase_eq, hbase]
        unfold should_skip_precommit_file
        rw [hpc]
        decide
      · rw [hbase] at hcase
        have hconc : base_name rel = rs ".pre-commit-config.yaml.tmpl" := by
          rw [hcase]
          decide
        rw [hbase_eq, hconc]
        unfold should_skip_precommit_file
        rw [hpc]
        decide
    unfold gin_keep at hkeep
    rw [hskip] at hkeep
    simp at hkeep
  · intro store tp files ctx params outs fc hpc h hmem hname
    obtain ⟨r, hr⟩ :=
      gin_render_process_ok store tp ctx params files outs fc h hmem
    cases hs : strip_prefix_l (tp ++ rs "/") fc.1 with
    | none =>
      simp only [gin_process_one, hs] at hr
      exact absurd hr (by simp)
    | some rel =>
      rcases gin_process_one_precommit store ctx tp params fc hpc hname rel hs with
        ⟨e, he⟩ | ⟨rend, hrend⟩
      · rw [he] at hr
        exact absurd hr (by simp)
      · have hmem_out :=
          gin_render_mem store tp ctx params files outs fc
            (gin_out_rel rel, rend) h hmem hrend
        refine ⟨(gin_out_rel rel, rend), hmem_out, ?_⟩
        have hfc1 : fc.1 = (tp ++ rs "/") ++ rel :=
          strip_prefix_l_some (tp ++ rs "/") fc.1 rel hs
        have hassoc : (tp ++ rs "/") ++ rel = tp ++ '/' :: rel := by
          rw [List.append_assoc]
          rfl
        have hbrel : base_name rel = rs ".pre-commit-config.yaml.tmpl" := by
          rw [← hname, hfc1, hassoc, base_name_append]
        have hext : rust_path_extension rel = some (rs "tmpl") := by
          unfold rust_path_extension
          rw [hbrel]
          decide
        have hcond : (rust_path_extension rel == some (rs "tmpl")) = true := by
          rw [hext]
          decide
        show base_name (gin_out_rel rel) = rs ".pre-commit-config.yaml"
        unfold gin_out_rel
        rw [if_pos hcond, base_with_ext_empty, hbrel]
        decide

/-- C3, witness: on a concrete Gin namespace holding the pre-commit
template, with `enable_precommit` true, the walk's output holds the rendered
`.pre-commit-config.yaml`. -/
theorem precommit_gating_witness :
    ∃ o ∈ [(rs ".pre-commit-config.yaml", rs "x")],
      base_name o.1 = rs ".pre-commit-config.yaml" :=
  precommit_gating.2.2.2 sample_store_gin (rs "t") sample_gin_files []
    sample_gin_params_precommit_on [(rs ".pre-commit-config.yaml", rs "x")]
    (rs "t/.pre-commit-config.yaml.tmpl", rs "x") rfl rfl (by decide) (by decide)

/-- C3, counterexample: `TemplateProcessor::process_embedded_template_directory`
on a namespace holding `.pre-commit-config.yaml.tmpl`, with
`enable_precommit` false in the context, still emits
`.pre-commit-config.yaml` — that walk applies no skip rule. -/
theorem precommit_skip_claim_false :
    process_embedded_template_directory sample_store_precommit []
        [(rs "enable_precommit", .bool false)] =
      .ok [(rs ".pre-commit-config.yaml", rs "x")] ∧
    ctx_lookup [(rs "enable_precommit", Value.bool false)]
        (rs "enable_precommit") = some (.bool false) :=
  ⟨rfl, rfl⟩

lemma prefix_filter_cond (p : RStr) :
    ∀ f : RStr,
      (p.isPrefixOf f && decide (p.length < f.length) &&
        (f[p.length]? == some '/')) = (p ++ ['/']).isPrefixOf f := by
  induction p with
  | nil =>
    intro f
    cases f with
    | nil => decide
    | cons c fs =>
      by_cases hc : c = '/'
      · subst hc
        simp [List.isPrefixOf]
      · simp [List.isPrefixOf, beq_false_of_ne hc,
          beq_false_of_ne (fun h => hc h.symm)]
  | cons a p ih =>
    intro f
    cases f with
    | nil => simp [List.isPrefixOf]
    | cons b fs =>
      by_cases hab : a = b
      · subst hab
        show ((a == a && p.isPrefixOf fs) && decide ((a :: p).length < (a :: fs).length) &&
          ((a :: fs)[p.length + 1]? == some '/')) =
            (a == a && (p ++ ['/']).isPrefixOf fs)
        rw [decide_eq_decide.mpr
          (by simp only [List.length_cons]; omega :
            ((a :: p).length < (a :: fs).length) ↔ (p.length < fs.length))]
        simp only [List.getElem?_cons_succ, beq_self_eq_true, Bool.true_and]
        rw [← ih fs]
      · show ((a == b && p.isPrefixOf fs) && _ && _) = (a == b && (p ++ ['/']).isPrefixOf fs)
        rw [beq_false_of_ne hab]
        simp

/-- C8, amended: `get_embedded_template_files` returns exactly the files of
the store enumeration lying strictly under the non-empty namespace prefix —
membership is determined by the whole-store enumeration and the prefix test
`path ++ "/"`.  Determinism of repeated calls is inherent: the result is a
function of the immutable compiled-in store.  The ordering, however, is the
fixed traversal order of the embedded tree (each directory's files before
its subdirectories), not lexical order by path. -/
theorem list_files_membership :
    ∀ (store : Dir) (path f : RStr), path ≠ [] →
      (f ∈ get_embedded_template_files store path ↔
        f ∈ get_embedded_template_files store [] ∧
          (path ++ ['/']).isPrefixOf f = true) := by
  intro store path f hpath
  unfold get_embedded_template_files
  rw [if_neg hpath, if_pos rfl]
  simp only [List.mem_filter]
  rw [prefix_filter_cond path f]

/-- C8, witness: in the two-level sample store, `a/x` is listed under the
namespace `a`. -/
theorem list_files_membership_witness :
    rs "a/x" ∈ get_embedded_template_files sample_store_order (rs "a") :=
  (list_files_membership sample_store_order (rs "a") (rs "a/x")
      (by decide)).mpr ⟨by decide, by decide⟩

/-- C8, counterexample: on a store with file `b` beside subdirectory `a`
holding `a/x`, the enumeration yields `[b, a/x]`, although `a/x` precedes
`b` lexically — the claimed lexical ordering by path does not hold. -/
theorem list_files_order_claim_false :
    get_embedded_template_files sample_store_order [] = [rs "b", rs "a/x"] ∧
    lex_lt (rs "a/x") (rs "b") = true :=
  ⟨rfl, by decide⟩

/-- C9: when the requested license template is absent from the embedded
store, `ProjectGenerator::generate_license` returns an error rather than
warning and continuing, and `ProjectGenerator::generate` as a whole aborts
with an error. -/
theorem license_absent_fatal :
    ∀ (store : Dir) (p : ProjectParams) (git_author : RStr) (year : Int),
      dir_get_file_s store (license_template_path p) = none →
      (∃ e, generate_license store p git_author year = .error e) ∧
      (∃ e, project_generate store p git_author year = .error e) := by
  intro store p ga year habs
  have hlic : ∃ e, generate_license store p ga year = .error e := by
    refine ⟨rs "License template not found", ?_⟩
    unfold generate_license
    rw [if_pos (by rw [habs]; rfl)]
  refine ⟨hlic, ?_⟩
  obtain ⟨e, he⟩ := hlic
  unfold project_generate
  cases hv : p.validate with
  | error ev => exact ⟨ev, by simp [hv]⟩
  | ok u =>
    cases u
    exact ⟨e, by simp [hv, he]⟩

/-- C9, witness: with the empty store, generating the MIT license for the
sample project fails, and so does the whole project generation. -/
theorem license_absent_fatal_witness :
    (∃ e, generate_license empty_store sample_project_params (rs "Unknown") 2026 =
      .error e) ∧
    (∃ e, project_generate empty_store sample_project_params (rs "Unknown") 2026 =
      .error e) :=
  license_absent_fatal empty_store sample_project_params (rs "Unknown") 2026 rfl
